import Mathlib

/-!
Shallow embedding of `src/backend/src/daemon/daemon_thread.rs` from the
system76-keyboard-configurator repository: the command-serialization and
debounce engine (`ThreadClient` / `Thread`).

The embedding models the shared state touched by the facade (`ThreadClient`)
and the worker (`Thread`) explicitly:
  * the cancellation-token registry `cancels : HashMap<SetEnum, Arc<AtomicBool>>`
    is an association list from `SetEnum` (compared with the derived equality,
    which for `Item` compares keys only) to token ids;
  * tokens are a list of booleans indexed by token id (`Arc<AtomicBool>`);
  * reply slots (`oneshot` channels) are a list of `SlotState` indexed by
    slot id;
  * the unbounded command queue is a list of `SetCmd`;
  * the worker-owned `boards` map, `matrix_get_rate` cell, the response
    channel and the sequence of device calls are further fields.

Device-capability calls (`dyn Daemon`) are an oracle (`Daemon` structure of
result functions) and every call the worker performs is appended to a call
log, so that claims about "exactly one device call" are statable.
-/

namespace DaemonThread

/-- `BoardId` (an opaque identifier in the daemon layer), modelled as `Nat`. -/
abbrev BoardId := Nat

/-- A key-matrix snapshot (`Matrix`): a comparable grid of values. -/
abbrev Matrix := List (List Bool)

/-- `Matrix::default()`. -/
def Matrix.default : Matrix := []

/-- `struct Item<K, V> { key: K, value: V }`. -/
structure Item (K V : Type) where
  key : K
  value : V

/-- `enum SetEnum` from the source: one variant per command kind.
`Duration` is modelled as `Nat` (milliseconds). -/
inductive SetEnum where
  | keyMap (i : Item (BoardId × Nat × Nat × Nat) Nat)
  | color (i : Item (BoardId × Nat) (Nat × Nat × Nat))
  | brightness (i : Item (BoardId × Nat) Int)
  | mode (i : Item (BoardId × Nat) (Nat × Nat))
  | ledSave (b : BoardId)
  | matrixGetRate (i : Item Unit (Option Nat))
  | refresh
  | exit

/-- The derived `PartialEq`/`Hash` on `SetEnum`: same variant, and for the
`Item`-carrying variants the hand-written `PartialEq for Item` compares the
`key` field only (the payload `value` is excluded from identity). -/
def SetEnum.eqKey : SetEnum → SetEnum → Bool
  | .keyMap a, .keyMap b => decide (a.key = b.key)
  | .color a, .color b => decide (a.key = b.key)
  | .brightness a, .brightness b => decide (a.key = b.key)
  | .mode a, .mode b => decide (a.key = b.key)
  | .ledSave a, .ledSave b => decide (a = b)
  | .matrixGetRate a, .matrixGetRate b => decide (a.key = b.key)
  | .refresh, .refresh => true
  | .exit, .exit => true
  | _, _ => false

/-- The identity (kind plus logical target key) that `SetEnum.eqKey`
compares: variant discriminant together with the `key` field. -/
inductive SetKey where
  | keyMap (k : BoardId × Nat × Nat × Nat)
  | color (k : BoardId × Nat)
  | brightness (k : BoardId × Nat)
  | mode (k : BoardId × Nat)
  | ledSave (b : BoardId)
  | matrixGetRate
  | refresh
  | exit
deriving DecidableEq

/-- Extract the identity of a command. -/
def SetEnum.keyOf : SetEnum → SetKey
  | .keyMap a => .keyMap a.key
  | .color a => .color a.key
  | .brightness a => .brightness a.key
  | .mode a => .mode a.key
  | .ledSave b => .ledSave b
  | .matrixGetRate _ => .matrixGetRate
  | .refresh => .refresh
  | .exit => .exit

/-- One device-capability invocation, with its arguments. -/
inductive DeviceCall where
  | keymapSet (board : BoardId) (layer output input : Nat) (value : Nat)
  | setColor (board : BoardId) (index : Nat) (color : Nat × Nat × Nat)
  | setBrightness (board : BoardId) (index : Nat) (brightness : Int)
  | setMode (board : BoardId) (layer mode speed : Nat)
  | ledSave (board : BoardId)
  | matrixGet (board : BoardId)
  | refreshInventory
  | listBoards
deriving DecidableEq

/-- The device capability (`dyn Daemon`) as a result oracle: each method's
outcome for given arguments. -/
structure Daemon where
  keymap_set : BoardId → Nat → Nat → Nat → Nat → Except String Unit
  set_color : BoardId → Nat → (Nat × Nat × Nat) → Except String Unit
  set_brightness : BoardId → Nat → Int → Except String Unit
  set_mode : BoardId → Nat → Nat → Nat → Except String Unit
  led_save : BoardId → Except String Unit
  matrix_get : BoardId → Except String Matrix
  refresh : Except String Unit
  boards : Except String (List BoardId)

/-- The environment of the worker: the device capability plus the external
`Board::new` constructor (`crate::Board`, outside this file), modelled by its
outcome per id (a handle, represented by the id itself, or an error). -/
structure Env where
  daemon : Daemon
  board_new : BoardId → Except String Unit

/-- `enum ThreadResponse`; the added-board handle is represented by its id. -/
inductive ThreadResponse where
  | boardAdded (b : BoardId)
  | boardRemoved (b : BoardId)
deriving DecidableEq

/-- `struct ThreadBoard`: stored snapshot plus the per-board snapshot stream
(the list of values sent on `matrix_channel`, in order). -/
structure ThreadBoard where
  matrix : Matrix
  stream : List Matrix
deriving DecidableEq

/-- `ThreadBoard::new`: default snapshot, nothing sent yet. -/
def ThreadBoard.new : ThreadBoard := { matrix := Matrix.default, stream := [] }

deriving instance DecidableEq for Except

/-- The state of one reply slot (`oneshot` channel): not yet resolved, a sent
result, or producer dropped without sending. -/
inductive SlotState where
  | pending
  | sent (r : Except String Unit)
  | dropped
deriving DecidableEq

/-- `struct Set`: the queued command. Token and reply slot are referenced by
index into the system state. -/
structure SetCmd where
  inner : SetEnum
  slot : Nat
  cancel : Nat

/-- The whole shared state of facade and worker. -/
structure SysState where
  /-- the token registry `ThreadClient.cancels` -/
  cancels : List (SetEnum × Nat)
  /-- allocated cancellation tokens, indexed by id; `true` = cancelled -/
  tokens : List Bool
  /-- allocated reply slots, indexed by id -/
  slots : List SlotState
  /-- the unbounded command channel, front = next to dequeue -/
  queue : List SetCmd
  /-- `Thread.boards`, as an ordered association list -/
  boards : List (BoardId × ThreadBoard)
  /-- `Thread.matrix_get_rate` -/
  rate : Option Nat
  /-- values sent on `response_channel`, in order -/
  responses : List ThreadResponse
  /-- device-capability calls performed, in order -/
  calls : List DeviceCall

/-- The state right after `ThreadClient::new`: everything empty, no rate. -/
def SysState.init : SysState :=
  { cancels := [], tokens := [], slots := [], queue := [], boards := []
    rate := none, responses := [], calls := [] }

/-- `HashMap` lookup keyed by `SetEnum.eqKey` over the association list. -/
def lookupKey : List (SetEnum × Nat) → SetEnum → Option Nat
  | [], _ => none
  | (k, t) :: rest, se => if SetEnum.eqKey k se then some t else lookupKey rest se

/-- `HashMap::remove` keyed by `SetEnum.eqKey`: drop the first entry with the
given identity (the map holds at most one). -/
def removeKey : List (SetEnum × Nat) → SetEnum → List (SetEnum × Nat)
  | [], _ => []
  | (k, t) :: rest, se =>
    if SetEnum.eqKey k se then rest else (k, t) :: removeKey rest se

/-- `ThreadClient::send` up to the await: under the registry lock, cancel and
remove any existing token with the same identity, allocate a fresh token and
reply slot, register the token, and push the command onto the queue. -/
def ThreadClient.send (st : SysState) (se : SetEnum) : SysState :=
  let tokens :=
    match lookupKey st.cancels se with
    | some t => st.tokens.set t true
    | none => st.tokens
  let tid := tokens.length
  let sid := st.slots.length
  { st with
    cancels := removeKey st.cancels se ++ [(se, tid)]
    tokens := tokens ++ [false]
    slots := st.slots ++ [SlotState.pending]
    queue := st.queue ++ [{ inner := se, slot := sid, cancel := tid }] }

/-- Drop a reply slot's producer without sending. -/
def dropSlot (slots : List SlotState) (s : Nat) : List SlotState :=
  slots.set s SlotState.dropped

/-- `Set::reply`: send a result on the reply slot. -/
def sendSlot (slots : List SlotState) (s : Nat) (r : Except String Unit) : List SlotState :=
  slots.set s (SlotState.sent r)

/-- Drop the producers of many reply slots. -/
def dropSlots : List SlotState → List Nat → List SlotState
  | slots, [] => slots
  | slots, s :: rest => dropSlots (dropSlot slots s) rest

/-- The `oneshot` cancellation error type. -/
inductive Canceled where
  | canceled
deriving DecidableEq

/-- What `receiver.await` yields for a slot in a given state: still pending
(`none`), the sent result, or `Err(Canceled)` when the producer was dropped. -/
def oneshotRecv : SlotState → Option (Except Canceled (Except String Unit))
  | .pending => none
  | .sent r => some (.ok r)
  | .dropped => some (.error .canceled)

/-- `receiver.await.unwrap_or(Ok(()))` — the result the issuing caller's
await resolves to (source line 117). -/
def callerResult (s : SlotState) : Option (Except String Unit) :=
  (oneshotRecv s).map fun x =>
    match x with
    | .ok r => r
    | .error _ => Except.ok ()

/-- `Thread::matrix_refresh_all`: for each board in iteration order, query its
snapshot; on error, break out, leaving this record and all later ones
untouched; on success, if the snapshot differs from the stored one, send it on
the board's stream and store it; iff equal, leave the record unchanged. -/
def Thread.matrixRefreshAll (d : Daemon) : List (BoardId × ThreadBoard) → List (BoardId × ThreadBoard)
  | [] => []
  | (k, v) :: rest =>
    match d.matrix_get k with
    | .error _ => (k, v) :: rest
    | .ok m =>
      if v.matrix = m then (k, v) :: Thread.matrixRefreshAll d rest
      else (k, { matrix := m, stream := v.stream ++ [m] }) :: Thread.matrixRefreshAll d rest

/-- The per-record effect of one successful poll visit (the body of the loop
in `Thread::matrix_refresh_all` for one record, when the query outcome for
that record is applied). -/
def pollUpdate (d : Daemon) (p : BoardId × ThreadBoard) : BoardId × ThreadBoard :=
  match d.matrix_get p.1 with
  | .error _ => p
  | .ok m =>
    if p.2.matrix = m then p
    else (p.1, { matrix := m, stream := p.2.stream ++ [m] })

/-- Does the boards map contain this id (`boards.contains_key`)? -/
def containsBoard (bs : List (BoardId × ThreadBoard)) (i : BoardId) : Bool :=
  bs.any fun p => decide (p.1 = i)

/-- The removal pass of `Thread::refresh` (`boards.retain`): keep the records
whose id is in `new_ids`; for each dropped record emit `BoardRemoved` in
iteration order. Returns (retained records, emitted responses). -/
def retainBoards (newIds : List BoardId) :
    List (BoardId × ThreadBoard) → List (BoardId × ThreadBoard) × List ThreadResponse
  | [] => ([], [])
  | (id, b) :: rest =>
    let r := retainBoards newIds rest
    if newIds.contains id then ((id, b) :: r.1, r.2)
    else (r.1, ThreadResponse.boardRemoved id :: r.2)

/-- The addition pass of `Thread::refresh`: for each reported id in order, if
not already known, attempt `Board::new`; on success emit `BoardAdded` and
insert a fresh record; on failure log and skip. Returns (resulting records,
emitted responses). -/
def addBoards (e : Env) (bs : List (BoardId × ThreadBoard)) :
    List BoardId → List (BoardId × ThreadBoard) × List ThreadResponse
  | [] => (bs, [])
  | i :: rest =>
    if containsBoard bs i then addBoards e bs rest
    else
      match e.board_new i with
      | .ok _ =>
        let r := addBoards e (bs ++ [(i, ThreadBoard.new)]) rest
        (r.1, ThreadResponse.boardAdded i :: r.2)
      | .error _ => addBoards e bs rest

/-- `Thread::refresh`: refresh the device inventory and list sub-device ids
(each propagating its error and aborting before any pass runs), then run the
removal pass followed by the addition pass. -/
def Thread.refresh (e : Env) (st : SysState) : Except String Unit × SysState :=
  let st1 := { st with calls := st.calls ++ [DeviceCall.refreshInventory] }
  match e.daemon.refresh with
  | .error err => (.error err, st1)
  | .ok _ =>
    let st2 := { st1 with calls := st1.calls ++ [DeviceCall.listBoards] }
    match e.daemon.boards with
    | .error err => (.error err, st2)
    | .ok newIds =>
      let rem := retainBoards newIds st2.boards
      let add := addBoards e rem.1 newIds
      (.ok (), { st2 with boards := add.1
                          responses := st2.responses ++ rem.2 ++ add.2 })

/-- `Thread::handle_set`: if the command's cancellation token reads true, skip
execution and drop the reply slot. Otherwise dispatch by kind: device
mutations call the capability and reply with its result; `MatrixGetRate`
stores the rate and replies `Ok`; `Refresh` runs reconciliation and replies
with its result; `Exit` returns `false` (stop the loop) with the slot dropped
unsent. Returns (continue?, new state). -/
def Thread.handleSet (e : Env) (st : SysState) (set : SetCmd) : Bool × SysState :=
  if st.tokens.getD set.cancel false then
    (true, { st with slots := dropSlot st.slots set.slot })
  else
    match set.inner with
    | .keyMap i =>
      let resp := e.daemon.keymap_set i.key.1 i.key.2.1 i.key.2.2.1 i.key.2.2.2 i.value
      (true, { st with
        calls := st.calls ++ [DeviceCall.keymapSet i.key.1 i.key.2.1 i.key.2.2.1 i.key.2.2.2 i.value]
        slots := sendSlot st.slots set.slot resp })
    | .color i =>
      let resp := e.daemon.set_color i.key.1 i.key.2 i.value
      (true, { st with
        calls := st.calls ++ [DeviceCall.setColor i.key.1 i.key.2 i.value]
        slots := sendSlot st.slots set.slot resp })
    | .brightness i =>
      let resp := e.daemon.set_brightness i.key.1 i.key.2 i.value
      (true, { st with
        calls := st.calls ++ [DeviceCall.setBrightness i.key.1 i.key.2 i.value]
        slots := sendSlot st.slots set.slot resp })
    | .mode i =>
      let resp := e.daemon.set_mode i.key.1 i.key.2 i.value.1 i.value.2
      (true, { st with
        calls := st.calls ++ [DeviceCall.setMode i.key.1 i.key.2 i.value.1 i.value.2]
        slots := sendSlot st.slots set.slot resp })
    | .ledSave b =>
      let resp := e.daemon.led_save b
      (true, { st with
        calls := st.calls ++ [DeviceCall.ledSave b]
        slots := sendSlot st.slots set.slot resp })
    | .matrixGetRate i =>
      (true, { st with rate := i.value
                       slots := sendSlot st.slots set.slot (Except.ok ()) })
    | .refresh =>
      let r := Thread.refresh e st
      (true, { r.2 with slots := sendSlot r.2.slots set.slot r.1 })
    | .exit => (false, { st with slots := dropSlot st.slots set.slot })

/-- The worker dispatch loop (`pool.run_until` body in `Thread::spawn`) over
an explicit list of queued commands: dequeue in FIFO order and run
`handle_set`; when it returns `false` (exit), stop — the receiver and all
still-queued commands are dropped, which drops their reply-slot producers. -/
def Thread.stepQueue (e : Env) (st : SysState) : List SetCmd → SysState
  | [] => st
  | c :: rest =>
    let r := Thread.handleSet e st c
    if r.1 then Thread.stepQueue e r.2 rest
    else { r.2 with slots := dropSlots r.2.slots (rest.map SetCmd.slot) }

/-- Run the worker until the queue is drained or an exit command stops it. -/
def Thread.runWorker (e : Env) (st : SysState) : SysState :=
  Thread.stepQueue e { st with queue := [] } st.queue

/-- The facade's device-mutating operations (`keymap_set`, `set_color`,
`set_brightness`, `set_mode`, `led_save`): the commands that both carry a
debounce identity and translate into a device call. -/
inductive Mutation where
  | keyMap (k : BoardId × Nat × Nat × Nat) (v : Nat)
  | color (k : BoardId × Nat) (v : Nat × Nat × Nat)
  | brightness (k : BoardId × Nat) (v : Int)
  | mode (k : BoardId × Nat) (v : Nat × Nat)
  | ledSave (b : BoardId)

/-- The debounce identity of a mutation. -/
def Mutation.key : Mutation → SetKey
  | .keyMap k _ => .keyMap k
  | .color k _ => .color k
  | .brightness k _ => .brightness k
  | .mode k _ => .mode k
  | .ledSave b => .ledSave b

/-- The `SetEnum` the facade builds for a mutation. -/
def Mutation.toSet : Mutation → SetEnum
  | .keyMap k v => .keyMap { key := k, value := v }
  | .color k v => .color { key := k, value := v }
  | .brightness k v => .brightness { key := k, value := v }
  | .mode k v => .mode { key := k, value := v }
  | .ledSave b => .ledSave b

/-- The device call the worker performs for a mutation. -/
def Mutation.call : Mutation → DeviceCall
  | .keyMap k v => .keymapSet k.1 k.2.1 k.2.2.1 k.2.2.2 v
  | .color k v => .setColor k.1 k.2 v
  | .brightness k v => .setBrightness k.1 k.2 v
  | .mode k v => .setMode k.1 k.2 v.1 v.2
  | .ledSave b => .ledSave b

/-- The device result for a mutation's call. -/
def Mutation.exec (d : Daemon) : Mutation → Except String Unit
  | .keyMap k v => d.keymap_set k.1 k.2.1 k.2.2.1 k.2.2.2 v
  | .color k v => d.set_color k.1 k.2 v
  | .brightness k v => d.set_brightness k.1 k.2 v
  | .mode k v => d.set_mode k.1 k.2 v.1 v.2
  | .ledSave b => d.led_save b

/-- Is an `Except` outcome a success? -/
def isOk {ε α : Type} : Except ε α → Bool
  | .ok _ => true
  | .error _ => false

/-- The registry well-formedness the `HashMap` provides: no two entries share
an identity. -/
def RegistryOk (l : List (SetEnum × Nat)) : Prop :=
  l.Pairwise fun a b => SetEnum.eqKey a.1 b.1 = false

/-- Every registered token id denotes an allocated token. -/
def TokensOk (st : SysState) : Prop :=
  ∀ p ∈ st.cancels, p.2 < st.tokens.length

/-- The live (non-cancelled) registry entries for an identity. -/
def liveEntries (st : SysState) (k : SetEnum) : List (SetEnum × Nat) :=
  st.cancels.filter fun p => SetEnum.eqKey p.1 k && !(st.tokens.getD p.2 false)

lemma eqKey_iff (a b : SetEnum) : SetEnum.eqKey a b = true ↔ a.keyOf = b.keyOf := by
  cases a <;> cases b <;> simp [SetEnum.eqKey, SetEnum.keyOf]

lemma eqKey_false_iff (a b : SetEnum) : SetEnum.eqKey a b = false ↔ a.keyOf ≠ b.keyOf := by
  rw [← Bool.not_eq_true, not_iff_not]
  exact eqKey_iff a b

lemma eqKey_refl (a : SetEnum) : SetEnum.eqKey a a = true := (eqKey_iff a a).2 rfl

lemma removeKey_sublist (l : List (SetEnum × Nat)) (se : SetEnum) :
    (removeKey l se).Sublist l := by
  induction l with
  | nil => simp [removeKey]
  | cons p rest ih =>
    rw [removeKey]
    split
    · exact (List.sublist_cons_self p rest)
    · exact ih.cons₂ p

lemma registryOk_removeKey {l : List (SetEnum × Nat)} (se : SetEnum) (h : RegistryOk l) :
    RegistryOk (removeKey l se) :=
  List.Pairwise.sublist (removeKey_sublist l se) h

lemma mem_removeKey_eqKey_false {l : List (SetEnum × Nat)} {se : SetEnum}
    (h : RegistryOk l) : ∀ x ∈ removeKey l se, SetEnum.eqKey x.1 se = false := by
  induction l with
  | nil => simp [removeKey]
  | cons p rest ih =>
    rw [RegistryOk, List.pairwise_cons] at h
    intro x hx
    rw [removeKey] at hx
    by_cases hp : SetEnum.eqKey p.1 se = true
    · rw [if_pos hp] at hx
      have hpx := h.1 x hx
      rw [eqKey_false_iff] at hpx
      rw [eqKey_iff p.1 se] at hp
      rw [eqKey_false_iff]
      intro hxe
      exact hpx (hp.trans hxe.symm)
    · rw [if_neg hp] at hx
      rcases List.mem_cons.1 hx with rfl | hx'
      · exact Bool.eq_false_iff.2 hp
      · exact ih h.2 x hx'

lemma mem_removeKey {l : List (SetEnum × Nat)} {se : SetEnum} :
    ∀ x ∈ removeKey l se, x ∈ l :=
  fun _ hx => (removeKey_sublist l se).mem hx

lemma lookupKey_mem {l : List (SetEnum × Nat)} {se : SetEnum} {t : Nat}
    (h : lookupKey l se = some t) : ∃ k, (k, t) ∈ l ∧ SetEnum.eqKey k se = true := by
  induction l with
  | nil => simp [lookupKey] at h
  | cons p rest ih =>
    rw [lookupKey] at h
    by_cases hp : SetEnum.eqKey p.1 se = true
    · rw [if_pos hp] at h
      obtain rfl : p.2 = t := Option.some.inj h
      exact ⟨p.1, by rw [Prod.mk.eta]; exact List.mem_cons_self p rest, hp⟩
    · rw [if_neg hp] at h
      rcases ih h with ⟨k, hk, hke⟩
      exact ⟨k, List.mem_cons_of_mem p hk, hke⟩

lemma registryOk_filter_length {l : List (SetEnum × Nat)} (h : RegistryOk l) (k : SetEnum) :
    (l.filter fun p => SetEnum.eqKey p.1 k).length ≤ 1 := by
  induction l with
  | nil => simp
  | cons p rest ih =>
    rw [RegistryOk, List.pairwise_cons] at h
    by_cases hp : SetEnum.eqKey p.1 k = true
    · rw [List.filter_cons, if_pos (by simpa using hp)]
      have : rest.filter (fun p => SetEnum.eqKey p.1 k) = [] := by
        apply List.filter_eq_nil_iff.2
        intro x hx
        have hfx := h.1 x hx
        rw [eqKey_false_iff] at hfx
        rw [eqKey_iff] at hp
        simp only [Bool.not_eq_true]
        rw [eqKey_false_iff]
        intro hxk
        exact hfx (hp.trans hxk.symm)
      simp [this]
    · rw [List.filter_cons, if_neg (by simpa using hp)]
      exact ih h.2

lemma dropSlot_getD (slots : List SlotState) (a s : Nat) :
    (dropSlot slots a).getD s SlotState.pending =
      if a = s ∧ a < slots.length then SlotState.dropped
      else slots.getD s SlotState.pending := by
  rw [dropSlot, List.getD_eq_getElem?_getD, List.getD_eq_getElem?_getD, List.getElem?_set]
  by_cases h1 : a = s
  · subst h1
    by_cases h2 : a < slots.length
    · simp [h2]
    · simp [h2, List.getElem?_eq_none (Nat.le_of_not_lt h2)]
  · simp [h1]

lemma dropSlots_length (slots : List SlotState) (l : List Nat) :
    (dropSlots slots l).length = slots.length := by
  induction l generalizing slots with
  | nil => rw [dropSlots]
  | cons a rest ih => rw [dropSlots, ih, dropSlot, List.length_set]

lemma dropSlots_getD (slots : List SlotState) (l : List Nat) (s : Nat) :
    (dropSlots slots l).getD s SlotState.pending =
      if s ∈ l ∧ s < slots.length then SlotState.dropped
      else slots.getD s SlotState.pending := by
  induction l generalizing slots with
  | nil => simp [dropSlots]
  | cons a rest ih =>
    rw [dropSlots, ih, dropSlot, List.length_set, ← dropSlot, dropSlot_getD]
    simp only [List.mem_cons]
    by_cases hs : s < slots.length
    · by_cases hm : s ∈ rest
      · simp [hs, hm]
      · by_cases ha : a = s
        · subst ha
          simp [hs, hm]
        · have hsa : ¬s = a := fun h => ha h.symm
          simp only [hs, hm, hsa, false_or, false_and, if_false, and_true]
          rw [if_neg (fun h : a = s ∧ _ => ha h.1)]
    · simp only [hs, and_false, if_false]
      rw [if_neg]
      rintro ⟨rfl, h2⟩
      exact hs h2

lemma send_cancels (st : SysState) (se : SetEnum) :
    (ThreadClient.send st se).cancels =
      removeKey st.cancels se ++ [(se, st.tokens.length)] := by
  cases hlook : lookupKey st.cancels se <;>
    simp [ThreadClient.send, hlook, List.length_set]

lemma send_tokens_none (st : SysState) (se : SetEnum)
    (h : lookupKey st.cancels se = none) :
    (ThreadClient.send st se).tokens = st.tokens ++ [false] := by
  simp [ThreadClient.send, h]

lemma send_tokens_some (st : SysState) (se : SetEnum) (t : Nat)
    (h : lookupKey st.cancels se = some t) :
    (ThreadClient.send st se).tokens = st.tokens.set t true ++ [false] := by
  simp [ThreadClient.send, h]

lemma send_tokens_length (st : SysState) (se : SetEnum) :
    (ThreadClient.send st se).tokens.length = st.tokens.length + 1 := by
  cases hlook : lookupKey st.cancels se <;>
    simp [ThreadClient.send, hlook, List.length_set]

lemma send_slots (st : SysState) (se : SetEnum) :
    (ThreadClient.send st se).slots = st.slots ++ [SlotState.pending] := by
  cases hlook : lookupKey st.cancels se <;> simp [ThreadClient.send, hlook]

lemma send_queue (st : SysState) (se : SetEnum) :
    (ThreadClient.send st se).queue =
      st.queue ++ [{ inner := se, slot := st.slots.length, cancel := st.tokens.length }] := by
  cases hlook : lookupKey st.cancels se <;>
    simp [ThreadClient.send, hlook, List.length_set]

lemma length_filter_and_le {α : Type} (l : List α) (A B : α → Bool) :
    (l.filter fun x => A x && B x).length ≤ (l.filter A).length := by
  induction l with
  | nil => simp
  | cons a rest ih =>
    by_cases hA : A a <;> by_cases hB : B a <;>
      simp [List.filter_cons, hA, hB] <;> omega

lemma matrixRefreshAll_all_ok (d : Daemon) : ∀ bs : List (BoardId × ThreadBoard),
    (∀ p ∈ bs, ∃ m, d.matrix_get p.1 = Except.ok m) →
    Thread.matrixRefreshAll d bs = bs.map (pollUpdate d) := by
  intro bs
  induction bs with
  | nil => intro _; rfl
  | cons p rest ih =>
    intro h
    obtain ⟨m, hm⟩ := h p (List.mem_cons_self p rest)
    have ih' := ih fun q hq => h q (List.mem_cons_of_mem _ hq)
    rcases p with ⟨k, v⟩
    simp only [Thread.matrixRefreshAll, pollUpdate, List.map_cons, hm]
    by_cases hv : v.matrix = m <;> simp [hv, ih']

/-- A device capability whose every operation succeeds (boards list empty,
snapshots empty). -/
def daemonOk : Daemon :=
  { keymap_set := fun _ _ _ _ _ => Except.ok ()
    set_color := fun _ _ _ => Except.ok ()
    set_brightness := fun _ _ _ => Except.ok ()
    set_mode := fun _ _ _ _ => Except.ok ()
    led_save := fun _ => Except.ok ()
    matrix_get := fun _ => Except.ok []
    refresh := Except.ok ()
    boards := Except.ok [] }

/-- An all-succeeding environment. -/
def envOk : Env := { daemon := daemonOk, board_new := fun _ => Except.ok () }

/-- An environment whose inventory refresh fails. -/
def envFail : Env :=
  { envOk with daemon := { daemonOk with refresh := Except.error "fail" } }

/-- An environment reporting sub-device ids `[2, 3, 4]`. -/
def envRep : Env :=
  { envOk with daemon := { daemonOk with boards := Except.ok [2, 3, 4] } }

/-- A device capability whose snapshot query fails exactly on board 9 and
reports snapshot `[[false]]` otherwise. -/
def daemonPoll : Daemon :=
  { daemonOk with
    matrix_get := fun b => if b = 9 then Except.error "x" else Except.ok [[false]] }

/-- C7: for every command whose reply-slot producer is dropped without a
result being sent (cancelled, or the worker shut down or exited before
replying), the issuing caller's await resolves to an unqualified success —
`receiver.await` yields the producer-dropped error and `unwrap_or(Ok(()))`
turns it into success. -/
theorem dropped_reply_resolves_success :
    oneshotRecv SlotState.dropped = some (Except.error Canceled.canceled) ∧
    callerResult SlotState.dropped = some (Except.ok ()) ∧
    ∀ r : Except String Unit, callerResult (SlotState.sent r) = some r :=
  ⟨rfl, rfl, fun _ => rfl⟩

/-- C2: the token-registry invariant is preserved by every facade operation
(each is a `send` of some `SetEnum`): the registry keeps at most one entry —
in particular at most one non-cancelled one — per identity, because inserting
a token for an identity that already has an entry first sets the old entry's
token to cancelled and removes the entry, all in one lock-held critical
section. -/
theorem registry_at_most_one_live_per_identity (st : SysState) (se : SetEnum)
    (h1 : RegistryOk st.cancels) (h2 : TokensOk st) :
    RegistryOk (ThreadClient.send st se).cancels ∧
    TokensOk (ThreadClient.send st se) ∧
    (∀ k, (liveEntries (ThreadClient.send st se) k).length ≤ 1) ∧
    (∀ t, lookupKey st.cancels se = some t →
      (ThreadClient.send st se).tokens.getD t false = true) := by
  have hreg : RegistryOk (ThreadClient.send st se).cancels := by
    rw [send_cancels, RegistryOk, List.pairwise_append]
    refine ⟨registryOk_removeKey se h1, List.pairwise_singleton _ _, ?_⟩
    intro a ha b hb
    rcases List.mem_singleton.1 hb with rfl
    exact mem_removeKey_eqKey_false h1 a ha
  refine ⟨hreg, ?_, ?_, ?_⟩
  · intro p hp
    rw [send_cancels] at hp
    rw [send_tokens_length]
    rcases List.mem_append.1 hp with hp' | hp'
    · exact Nat.lt_succ_of_lt (h2 p (mem_removeKey p hp'))
    · rcases List.mem_singleton.1 hp' with rfl
      exact Nat.lt_succ_self _
  · intro k
    calc (liveEntries (ThreadClient.send st se) k).length
        ≤ ((ThreadClient.send st se).cancels.filter
            fun p => SetEnum.eqKey p.1 k).length :=
          length_filter_and_le _ _ _
      _ ≤ 1 := registryOk_filter_length hreg k
  · intro t hsome
    obtain ⟨k, hk, _⟩ := lookupKey_mem hsome
    have ht : t < st.tokens.length := h2 (k, t) hk
    rw [send_tokens_some st se t hsome, List.getD_eq_getElem?_getD,
      List.getElem?_append, if_pos (by simpa [List.length_set] using ht),
      List.getElem?_set_self ht]
    rfl

/-- C2 witness: the invariant and conclusions at a concrete state. -/
theorem registry_at_most_one_live_per_identity_witness :
    RegistryOk (ThreadClient.send SysState.init SetEnum.refresh).cancels :=
  (registry_at_most_one_live_per_identity SysState.init SetEnum.refresh
    (by simp [RegistryOk, SysState.init])
    (by intro p hp; simp [SysState.init] at hp)).1

/-- C6: if the device inventory refresh or the sub-device id listing fails,
the force-refresh command returns that error to its caller, the known
sub-device set is unchanged, and no removal or addition notification is
emitted (both queries complete or fail before either pass begins). -/
theorem refresh_error_atomic (e : Env) (st : SysState) (c : SetCmd) (err : String)
    (hc : c.inner = SetEnum.refresh)
    (hnc : st.tokens.getD c.cancel false = false)
    (hfail : e.daemon.refresh = Except.error err ∨
      (e.daemon.refresh = Except.ok () ∧ e.daemon.boards = Except.error err)) :
    (Thread.handleSet e st c).1 = true ∧
    (Thread.handleSet e st c).2.boards = st.boards ∧
    (Thread.handleSet e st c).2.responses = st.responses ∧
    (Thread.handleSet e st c).2.slots = sendSlot st.slots c.slot (Except.error err) := by
  have hnc' : st.tokens[c.cancel]?.getD false = false := by
    simpa [List.getD_eq_getElem?_getD] using hnc
  rcases hfail with hf | hf2
  · simp [Thread.handleSet, hc, hnc', Thread.refresh, hf]
  · obtain ⟨hok, hf⟩ := hf2
    simp [Thread.handleSet, hc, hnc', Thread.refresh, hok, hf]

/-- C6 witness: a failing inventory refresh at a concrete input. -/
theorem refresh_error_atomic_witness :
    (Thread.handleSet envFail SysState.init
        { inner := SetEnum.refresh, slot := 0, cancel := 0 }).2.slots =
      sendSlot SysState.init.slots 0 (Except.error "fail") :=
  (refresh_error_atomic envFail SysState.init
    { inner := SetEnum.refresh, slot := 0, cancel := 0 } "fail" rfl rfl
    (Or.inl rfl)).2.2.2

/-- C5: during a poll cycle in which every snapshot query succeeds, each
record is replaced by its `pollUpdate`; and for any record, if the fresh
snapshot equals the stored one the record (stream included) is unchanged,
while if it differs exactly one value — the new snapshot — is appended to the
record's stream and becomes the stored snapshot. -/
theorem snapshot_diff_suppression (d : Daemon) (bs : List (BoardId × ThreadBoard))
    (h : ∀ p ∈ bs, ∃ m, d.matrix_get p.1 = Except.ok m) :
    Thread.matrixRefreshAll d bs = bs.map (pollUpdate d) ∧
    ∀ (p : BoardId × ThreadBoard) (m : Matrix), d.matrix_get p.1 = Except.ok m →
      (p.2.matrix = m → pollUpdate d p = p) ∧
      (p.2.matrix ≠ m →
        (pollUpdate d p).1 = p.1 ∧ (pollUpdate d p).2.matrix = m ∧
        (pollUpdate d p).2.stream = p.2.stream ++ [m]) := by
  refine ⟨matrixRefreshAll_all_ok d bs h, ?_⟩
  intro p m hm
  constructor
  · intro hv
    simp [pollUpdate, hm, hv]
  · intro hv
    simp [pollUpdate, hm, hv]

/-- C5 witness: a concrete poll cycle (changed snapshot for board 1). -/
theorem snapshot_diff_suppression_witness :
    Thread.matrixRefreshAll daemonPoll [(1, { matrix := [[true]], stream := [] })] =
      [(1, { matrix := [[true]], stream := [] })].map (pollUpdate daemonPoll) :=
  (snapshot_diff_suppression daemonPoll [(1, { matrix := [[true]], stream := [] })]
    (by intro p hp; rcases List.mem_singleton.1 hp with rfl; exact ⟨[[false]], rfl⟩)).1

/-- C8: in one poll cycle, if the snapshot query fails at some record, then
that record and every later one are neither diffed nor updated in that cycle,
while the records visited before the failure keep the updates already
applied. -/
theorem poll_fail_fast (d : Daemon) (pre post : List (BoardId × ThreadBoard))
    (kf : BoardId) (vf : ThreadBoard) (err : String)
    (hpre : ∀ p ∈ pre, ∃ m, d.matrix_get p.1 = Except.ok m)
    (hf : d.matrix_get kf = Except.error err) :
    Thread.matrixRefreshAll d (pre ++ (kf, vf) :: post) =
      pre.map (pollUpdate d) ++ (kf, vf) :: post := by
  induction pre with
  | nil => simp [Thread.matrixRefreshAll, hf]
  | cons p rest ih =>
    obtain ⟨m, hm⟩ := hpre p (List.mem_cons_self p rest)
    have ih' := ih fun q hq => hpre q (List.mem_cons_of_mem _ hq)
    rcases p with ⟨k, v⟩
    simp only [List.cons_append, Thread.matrixRefreshAll, pollUpdate, List.map_cons, hm]
    by_cases hv : v.matrix = m <;> simp [hv, ih']

/-- C8 witness: board 1 succeeds, board 9 fails, board 2 after the failure is
untouched. -/
theorem poll_fail_fast_witness :
    Thread.matrixRefreshAll daemonPoll
        ([(1, { matrix := [[true]], stream := [] })] ++
          (9, { matrix := [[true]], stream := [] }) ::
            [(2, { matrix := [[true]], stream := [] })]) =
      [(1, { matrix := [[true]], stream := [] })].map (pollUpdate daemonPoll) ++
        (9, { matrix := [[true]], stream := [] }) ::
          [(2, { matrix := [[true]], stream := [] })] :=
  poll_fail_fast daemonPoll _ _ 9 { matrix := [[true]], stream := [] } "x"
    (by intro p hp; rcases List.mem_singleton.1 hp with rfl; exact ⟨[[false]], rfl⟩)
    rfl

/-- C4: once a shutdown (`Exit`) command is dequeued with its token not
cancelled, the dispatch loop terminates; every command queued after it is
never executed against the device (no device call, no notification, no state
change) and never explicitly replied to — its reply-slot producer is dropped
— and the shutdown caller's own await resolves as success. -/
theorem shutdown_drains_without_executing (e : Env) (st : SysState)
    (c : SetCmd) (q2 : List SetCmd)
    (hc : c.inner = SetEnum.exit)
    (hnc : st.tokens.getD c.cancel false = false)
    (hb : ∀ s ∈ c.slot :: q2.map SetCmd.slot, s < st.slots.length) :
    (Thread.stepQueue e st (c :: q2)).calls = st.calls ∧
    (Thread.stepQueue e st (c :: q2)).responses = st.responses ∧
    (Thread.stepQueue e st (c :: q2)).boards = st.boards ∧
    (Thread.stepQueue e st (c :: q2)).rate = st.rate ∧
    (Thread.stepQueue e st (c :: q2)).cancels = st.cancels ∧
    ∀ s ∈ c.slot :: q2.map SetCmd.slot,
      (Thread.stepQueue e st (c :: q2)).slots.getD s SlotState.pending =
        SlotState.dropped ∧
      callerResult ((Thread.stepQueue e st (c :: q2)).slots.getD s SlotState.pending) =
        some (Except.ok ()) := by
  have hnc' : st.tokens[c.cancel]?.getD false = false := by
    simpa [List.getD_eq_getElem?_getD] using hnc
  have hstep : Thread.stepQueue e st (c :: q2) =
      { st with slots := dropSlots (dropSlot st.slots c.slot) (q2.map SetCmd.slot) } := by
    simp [Thread.stepQueue, Thread.handleSet, hc, hnc']
  rw [hstep]
  refine ⟨rfl, rfl, rfl, rfl, rfl, ?_⟩
  intro s hs
  have hdrop : (dropSlots (dropSlot st.slots c.slot) (q2.map SetCmd.slot)).getD s
      SlotState.pending = SlotState.dropped := by
    rw [dropSlots_getD, dropSlot_getD]
    have hslen : s < st.slots.length := hb s hs
    rcases List.mem_cons.1 hs with rfl | hmem
    · by_cases hm2 : c.slot ∈ q2.map SetCmd.slot
      · rw [if_pos ⟨hm2, by simpa [dropSlot, List.length_set] using hslen⟩]
      · rw [if_neg (fun h => hm2 h.1), if_pos ⟨rfl, hslen⟩]
    · rw [if_pos ⟨hmem, by simpa [dropSlot, List.length_set] using hslen⟩]
  exact ⟨hdrop, by rw [hdrop]; rfl⟩

/-- C4 witness: a concrete shutdown with one command queued behind it. -/
theorem shutdown_drains_without_executing_witness :
    (Thread.stepQueue envOk
        { SysState.init with slots := [SlotState.pending, SlotState.pending] }
        [{ inner := SetEnum.exit, slot := 0, cancel := 0 },
         { inner := SetEnum.ledSave 5, slot := 1, cancel := 1 }]).calls =
      ({ SysState.init with slots := [SlotState.pending, SlotState.pending] } : SysState).calls :=
  (shutdown_drains_without_executing envOk
    { SysState.init with slots := [SlotState.pending, SlotState.pending] }
    { inner := SetEnum.exit, slot := 0, cancel := 0 }
    [{ inner := SetEnum.ledSave 5, slot := 1, cancel := 1 }]
    rfl rfl (by decide)).1

lemma refresh_cancels (e : Env) (st : SysState) :
    (Thread.refresh e st).2.cancels = st.cancels := by
  cases hr : e.daemon.refresh with
  | error err => simp [Thread.refresh, hr]
  | ok u =>
    cases hb : e.daemon.boards with
    | error err => simp [Thread.refresh, hr, hb]
    | ok ids => simp [Thread.refresh, hr, hb]

lemma handleSet_cancels (e : Env) (st : SysState) (c : SetCmd) :
    (Thread.handleSet e st c).2.cancels = st.cancels := by
  rcases c with ⟨inner, slot, cancel⟩
  by_cases h : st.tokens[cancel]?.getD false = true
  · simp [Thread.handleSet, h]
  · cases inner <;> simp [Thread.handleSet, h, refresh_cancels]

lemma stepQueue_cancels (e : Env) (q : List SetCmd) :
    ∀ st, (Thread.stepQueue e st q).cancels = st.cancels := by
  induction q with
  | nil => intro st; rfl
  | cons c rest ih =>
    intro st
    simp only [Thread.stepQueue]
    by_cases hcont : (Thread.handleSet e st c).1
    · rw [if_pos hcont, ih, handleSet_cancels]
    · rw [if_neg hcont]
      exact handleSet_cancels e st c

/-- C9 counterexample: a single `LedSave 0` command is issued from the
initial state and the worker dequeues and executes it without it ever being
superseded; afterwards the registry still holds its entry (the claim says the
entry would be gone after the dequeue). The empty final queue and the replied
slot show the command was indeed dequeued and executed. -/
theorem registry_entry_survives_dequeue_counterexample :
    lookupKey (Thread.runWorker envOk
        (ThreadClient.send SysState.init (SetEnum.ledSave 0))).cancels
      (SetEnum.ledSave 0) = some 0 ∧
    (Thread.runWorker envOk
        (ThreadClient.send SysState.init (SetEnum.ledSave 0))).queue = [] ∧
    (Thread.runWorker envOk
        (ThreadClient.send SysState.init (SetEnum.ledSave 0))).slots =
      [SlotState.sent (Except.ok ())] := by
  refine ⟨rfl, rfl, rfl⟩

/-- C9 (amended): a registry entry lives from enqueue until superseded by a
newer command with the same identity — and only until then: the worker's
dequeue path never modifies the registry, so after a dequeue the (stale,
harmless) entry remains until superseded; a `send` of the same identity
leaves exactly the fresh entry for it. -/
theorem registry_entry_until_superseded (e : Env) (st : SysState)
    (q : List SetCmd) (h : RegistryOk st.cancels) :
    (Thread.stepQueue e st q).cancels = st.cancels ∧
    ∀ se, ((ThreadClient.send st se).cancels.filter
        fun p => SetEnum.eqKey p.1 se) = [(se, st.tokens.length)] := by
  refine ⟨stepQueue_cancels e q st, ?_⟩
  intro se
  rw [send_cancels, List.filter_append]
  have h1 : (removeKey st.cancels se).filter (fun p => SetEnum.eqKey p.1 se) = [] := by
    apply List.filter_eq_nil_iff.2
    intro x hx
    simp [mem_removeKey_eqKey_false h x hx]
  rw [h1]
  simp [eqKey_refl]

/-- C9 amended-theorem witness at a concrete state. -/
theorem registry_entry_until_superseded_witness :
    (Thread.stepQueue envOk SysState.init []).cancels = SysState.init.cancels :=
  (registry_entry_until_superseded envOk SysState.init []
    (by simp [RegistryOk, SysState.init])).1

/-- C1: if mutation A (identity K, value v1) is issued and then mutation B
(identity K, value v2) is issued before either is dequeued, then running the
worker makes exactly one device call — B's, carrying v2 — while A's command
is dequeued with its cancellation token reading true, its execution is
skipped, its reply slot is dropped and its caller's await resolves to
success; B's caller receives the device result. -/
theorem debounce_latest_value_wins (e : Env) (m1 m2 : Mutation)
    (hk : m1.key = m2.key) :
    (ThreadClient.send (ThreadClient.send SysState.init m1.toSet)
        m2.toSet).tokens.getD 0 false = true ∧
    (Thread.runWorker e (ThreadClient.send (ThreadClient.send SysState.init m1.toSet)
        m2.toSet)).calls = [m2.call] ∧
    (Thread.runWorker e (ThreadClient.send (ThreadClient.send SysState.init m1.toSet)
        m2.toSet)).slots.getD 0 SlotState.pending = SlotState.dropped ∧
    callerResult ((Thread.runWorker e (ThreadClient.send
        (ThreadClient.send SysState.init m1.toSet) m2.toSet)).slots.getD 0
        SlotState.pending) = some (Except.ok ()) ∧
    (Thread.runWorker e (ThreadClient.send (ThreadClient.send SysState.init m1.toSet)
        m2.toSet)).slots.getD 1 SlotState.pending =
      SlotState.sent (Mutation.exec e.daemon m2) := by
  cases m1 <;> cases m2 <;> simp [Mutation.key] at hk <;> subst hk <;>
    simp [Mutation.toSet, Mutation.call, Mutation.exec, ThreadClient.send,
      lookupKey, removeKey, SetEnum.eqKey, SysState.init, Thread.runWorker,
      Thread.stepQueue, Thread.handleSet, dropSlot, sendSlot, dropSlots,
      callerResult, oneshotRecv, List.getD_cons_zero, List.getD_cons_succ]

/-- C1 witness: two color mutations for the same key, concrete values. -/
theorem debounce_latest_value_wins_witness :
    (Thread.runWorker envOk (ThreadClient.send (ThreadClient.send SysState.init
        (Mutation.color (0, 1) (1, 2, 3)).toSet)
        (Mutation.color (0, 1) (7, 8, 9)).toSet)).calls =
      [(Mutation.color (0, 1) (7, 8, 9)).call] :=
  (debounce_latest_value_wins envOk (Mutation.color (0, 1) (1, 2, 3))
    (Mutation.color (0, 1) (7, 8, 9)) rfl).2.1

/-- The removal notifications a successful refresh emits: one `BoardRemoved`
per known record whose id is absent from the reported list, in record order. -/
def removalsOf (known : List (BoardId × ThreadBoard)) (reported : List BoardId) :
    List ThreadResponse :=
  (known.filter fun p => !reported.contains p.1).map
    fun p => ThreadResponse.boardRemoved p.1

/-- The addition notifications a successful refresh emits: one `BoardAdded`
per reported id absent from the known set whose handle construction succeeds,
in reported order. -/
def additionsOf (e : Env) (known : List (BoardId × ThreadBoard))
    (reported : List BoardId) : List ThreadResponse :=
  (reported.filter fun i => !containsBoard known i && isOk (e.board_new i)).map
    ThreadResponse.boardAdded

lemma containsBoard_cons (p : BoardId × ThreadBoard) (l : List (BoardId × ThreadBoard))
    (i : BoardId) :
    containsBoard (p :: l) i = (decide (p.1 = i) || containsBoard l i) := by
  simp [containsBoard]

lemma containsBoard_iff (bs : List (BoardId × ThreadBoard)) (i : BoardId) :
    containsBoard bs i = true ↔ i ∈ bs.map Prod.fst := by
  simp only [containsBoard, List.any_eq_true, decide_eq_true_eq, List.mem_map]

lemma containsBoard_append (bs bs' : List (BoardId × ThreadBoard)) (i : BoardId) :
    containsBoard (bs ++ bs') i = (containsBoard bs i || containsBoard bs' i) := by
  simp [containsBoard]

lemma containsBoard_single (i j : BoardId) (b : ThreadBoard) :
    containsBoard [(i, b)] j = decide (i = j) := by
  simp [containsBoard]

lemma retainBoards_eq (ids : List BoardId) (bs : List (BoardId × ThreadBoard)) :
    retainBoards ids bs =
      (bs.filter fun p => ids.contains p.1,
       (bs.filter fun p => !ids.contains p.1).map
         fun p => ThreadResponse.boardRemoved p.1) := by
  induction bs with
  | nil => rfl
  | cons p rest ih =>
    rcases p with ⟨id, b⟩
    simp only [retainBoards, ih, List.filter_cons]
    cases hc : ids.contains id <;> simp

lemma containsBoard_filter_contains (ids : List BoardId)
    (bs : List (BoardId × ThreadBoard)) (i : BoardId) (hi : ids.contains i = true) :
    containsBoard (bs.filter fun p => ids.contains p.1) i = containsBoard bs i := by
  induction bs with
  | nil => rfl
  | cons p rest ih =>
    rw [List.filter_cons]
    by_cases hc : ids.contains p.1 = true
    · rw [if_pos hc, containsBoard_cons, containsBoard_cons, ih]
    · rw [if_neg hc, ih, containsBoard_cons]
      have hp : ¬p.1 = i := fun h => hc (by rw [h]; exact hi)
      rw [decide_eq_false hp, Bool.false_or]

lemma addBoards_responses (e : Env) : ∀ (ids : List BoardId)
    (bs : List (BoardId × ThreadBoard)), ids.Nodup →
    (addBoards e bs ids).2 =
      (ids.filter fun i => !containsBoard bs i && isOk (e.board_new i)).map
        ThreadResponse.boardAdded := by
  intro ids
  induction ids with
  | nil => intro bs _; rfl
  | cons i rest ih =>
    intro bs hnd
    rw [List.nodup_cons] at hnd
    obtain ⟨hi, hrest⟩ := hnd
    rw [List.filter_cons]
    by_cases hc : containsBoard bs i = true
    · have hpred : (!containsBoard bs i && isOk (e.board_new i)) = false := by
        rw [hc, Bool.not_true, Bool.false_and]
      rw [hpred, if_neg Bool.false_ne_true]
      have hunfold : (addBoards e bs (i :: rest)).2 = (addBoards e bs rest).2 := by
        simp [addBoards, hc]
      rw [hunfold, ih bs hrest]
    · have hcf : containsBoard bs i = false := by
        rwa [Bool.not_eq_true] at hc
      cases hn : e.board_new i with
      | ok u =>
        have hpred : (!containsBoard bs i && isOk (Except.ok u : Except String Unit)) = true := by
          rw [hcf]
          rfl
        have hcong : (rest.filter fun j =>
              !containsBoard (bs ++ [(i, ThreadBoard.new)]) j && isOk (e.board_new j)) =
            rest.filter fun j => !containsBoard bs j && isOk (e.board_new j) := by
          apply List.filter_congr
          intro j hj
          have hji : ¬i = j := fun h => hi (h ▸ hj)
          rw [containsBoard_append, containsBoard_single, decide_eq_false hji,
            Bool.or_false]
        have hunfold : (addBoards e bs (i :: rest)).2 =
            ThreadResponse.boardAdded i ::
              (addBoards e (bs ++ [(i, ThreadBoard.new)]) rest).2 := by
          simp [addBoards, hcf, hn]
        rw [hpred, if_pos rfl, List.map_cons, hunfold, ih _ hrest, hcong]
      | error err =>
        have hpred : (!containsBoard bs i &&
            isOk (Except.error err : Except String Unit)) = false := by
          simp [isOk]
        rw [hpred, if_neg Bool.false_ne_true]
        have hunfold : (addBoards e bs (i :: rest)).2 = (addBoards e bs rest).2 := by
          simp [addBoards, hcf, hn]
        rw [hunfold, ih bs hrest]

lemma count_map_filter_nodup {β : Type} [DecidableEq β] :
    ∀ (l : List BoardId), l.Nodup → ∀ (pred : BoardId → Bool) (f : BoardId → β),
    (∀ a b, f a = f b → a = b) → ∀ i : BoardId,
    ((l.filter pred).map f).count (f i) = if i ∈ l ∧ pred i = true then 1 else 0 := by
  intro l
  induction l with
  | nil => intro _ pred f _ i; simp
  | cons a rest ih =>
    intro hnd pred f hf i
    rw [List.nodup_cons] at hnd
    obtain ⟨ha, hrest⟩ := hnd
    have ihi := ih hrest pred f hf i
    by_cases hpa : pred a = true
    · rw [List.filter_cons, if_pos hpa, List.map_cons, List.count_cons, ihi]
      by_cases hai : a = i
      · subst hai
        simp [ha, hpa, List.mem_cons]
      · have hbeq : (f a == f i) = false := by
          simp only [beq_eq_false_iff_ne, ne_eq]
          exact fun h => hai (hf a i h)
        have hne : ¬i = a := fun h => hai h.symm
        simp [hbeq, List.mem_cons, hne]
    · rw [List.filter_cons, if_neg hpa, ihi]
      by_cases hai : a = i
      · subst hai
        simp [ha, hpa]
      · have hne : ¬i = a := fun h => hai h.symm
        simp [List.mem_cons, hne]

lemma removalsOf_eq (known : List (BoardId × ThreadBoard)) (reported : List BoardId) :
    removalsOf known reported =
      ((known.map Prod.fst).filter fun id => !reported.contains id).map
        ThreadResponse.boardRemoved := by
  rw [removalsOf, List.filter_map, List.map_map]
  rfl

/-- C3: a successful refresh with both device queries succeeding emits, after
the previous responses, first the removal notifications (exactly one per
known id absent from the reported list), then the addition notifications
(exactly one per reported id absent from the known set whose handle
construction succeeds), nothing for ids present in both, every removal before
every addition. -/
theorem reconciliation_diff (e : Env) (st : SysState) (reported : List BoardId)
    (hknown : (st.boards.map Prod.fst).Nodup) (hrep : reported.Nodup)
    (hr : e.daemon.refresh = Except.ok ()) (hb : e.daemon.boards = Except.ok reported) :
    (Thread.refresh e st).1 = Except.ok () ∧
    (Thread.refresh e st).2.responses =
      st.responses ++ removalsOf st.boards reported ++ additionsOf e st.boards reported ∧
    (∀ i, (removalsOf st.boards reported).count (ThreadResponse.boardRemoved i) =
      if containsBoard st.boards i = true ∧ reported.contains i = false then 1 else 0) ∧
    (∀ i, (additionsOf e st.boards reported).count (ThreadResponse.boardAdded i) =
      if i ∈ reported ∧ containsBoard st.boards i = false ∧ isOk (e.board_new i) = true
      then 1 else 0) ∧
    (∀ i, (removalsOf st.boards reported).count (ThreadResponse.boardAdded i) = 0) ∧
    (∀ i, (additionsOf e st.boards reported).count (ThreadResponse.boardRemoved i) = 0) := by
  have hadd : (addBoards e (st.boards.filter fun p => reported.contains p.1) reported).2 =
      additionsOf e st.boards reported := by
    rw [addBoards_responses e reported _ hrep, additionsOf]
    congr 1
    apply List.filter_congr
    intro j hj
    have hcj : reported.contains j = true := by simpa using hj
    rw [containsBoard_filter_contains reported st.boards j hcj]
  refine ⟨by simp [Thread.refresh, hr, hb], ?_, ?_, ?_, ?_, ?_⟩
  · simp only [Thread.refresh, hr, hb]
    rw [retainBoards_eq]
    simp only []
    rw [hadd, removalsOf]
  · intro i
    rw [removalsOf_eq,
      count_map_filter_nodup (st.boards.map Prod.fst) hknown _ ThreadResponse.boardRemoved
        (fun a b h => ThreadResponse.boardRemoved.inj h) i]
    refine if_congr (and_congr (containsBoard_iff st.boards i).symm ?_) rfl rfl
    exact iff_of_eq (Bool.not_eq_true' _)
  · intro i
    rw [additionsOf,
      count_map_filter_nodup reported hrep _ ThreadResponse.boardAdded
        (fun a b h => ThreadResponse.boardAdded.inj h) i]
    refine if_congr (and_congr Iff.rfl ?_) rfl rfl
    rw [Bool.and_eq_true, Bool.not_eq_true']
  · intro i
    rw [List.count_eq_zero]
    simp [removalsOf]
  · intro i
    rw [List.count_eq_zero]
    simp [additionsOf]

/-- C3 witness: the spec's example — known ids `{1, 2, 3}`, reported ids
`{2, 3, 4}`. -/
theorem reconciliation_diff_witness :
    (Thread.refresh envRep
        { SysState.init with
          boards := [(1, ThreadBoard.new), (2, ThreadBoard.new), (3, ThreadBoard.new)] }).2.responses =
      ({ SysState.init with
          boards := [(1, ThreadBoard.new), (2, ThreadBoard.new), (3, ThreadBoard.new)] } : SysState).responses ++
        removalsOf [(1, ThreadBoard.new), (2, ThreadBoard.new), (3, ThreadBoard.new)] [2, 3, 4] ++
        additionsOf envRep [(1, ThreadBoard.new), (2, ThreadBoard.new), (3, ThreadBoard.new)] [2, 3, 4] :=
  (reconciliation_diff envRep
    { SysState.init with
      boards := [(1, ThreadBoard.new), (2, ThreadBoard.new), (3, ThreadBoard.new)] }
    [2, 3, 4] (by decide) (by decide) rfl rfl).2.1

/-- C10: force-refresh, set-poll-rate and shutdown each debounce under a
single constant identity: any two `MatrixGetRate` items, the two `Refresh`
values and the two `Exit` values compare equal as registry keys; a
refresh-refresh pair runs exactly one reconciliation (one inventory call)
with the first command's slot dropped; a rate-rate pair leaves the second
rate with the first command's slot dropped and the second replied `Ok`; a
cancelled `Exit` is skipped without stopping the loop; and in an
exit-exit-mutation scenario the second exit stops the loop, so no device
call happens and every slot producer is dropped. -/
theorem constant_identity_commands_debounce (e : Env) (v1 v2 : Option Nat) :
    (∀ i1 i2 : Item Unit (Option Nat),
      SetEnum.eqKey (SetEnum.matrixGetRate i1) (SetEnum.matrixGetRate i2) = true) ∧
    SetEnum.eqKey SetEnum.refresh SetEnum.refresh = true ∧
    SetEnum.eqKey SetEnum.exit SetEnum.exit = true ∧
    ((Thread.runWorker e (ThreadClient.send (ThreadClient.send SysState.init
        SetEnum.refresh) SetEnum.refresh)).calls.count DeviceCall.refreshInventory = 1 ∧
      (Thread.runWorker e (ThreadClient.send (ThreadClient.send SysState.init
        SetEnum.refresh) SetEnum.refresh)).slots.getD 0 SlotState.pending =
        SlotState.dropped) ∧
    ((Thread.runWorker e (ThreadClient.send (ThreadClient.send SysState.init
        (SetEnum.matrixGetRate { key := (), value := v1 }))
        (SetEnum.matrixGetRate { key := (), value := v2 }))).rate = v2 ∧
      (Thread.runWorker e (ThreadClient.send (ThreadClient.send SysState.init
        (SetEnum.matrixGetRate { key := (), value := v1 }))
        (SetEnum.matrixGetRate { key := (), value := v2 }))).slots =
        [SlotState.dropped, SlotState.sent (Except.ok ())]) ∧
    (∀ (st : SysState) (c : SetCmd), c.inner = SetEnum.exit →
      st.tokens.getD c.cancel false = true →
      Thread.handleSet e st c = (true, { st with slots := dropSlot st.slots c.slot })) ∧
    ((Thread.runWorker e (ThreadClient.send (ThreadClient.send (ThreadClient.send
        SysState.init SetEnum.exit) SetEnum.exit) (SetEnum.ledSave 3))).calls = [] ∧
      (Thread.runWorker e (ThreadClient.send (ThreadClient.send (ThreadClient.send
        SysState.init SetEnum.exit) SetEnum.exit) (SetEnum.ledSave 3))).slots =
        [SlotState.dropped, SlotState.dropped, SlotState.dropped]) := by
  refine ⟨?_, rfl, rfl, ?_, ⟨rfl, rfl⟩, ?_, ⟨rfl, rfl⟩⟩
  · intro i1 i2
    rcases i1 with ⟨k1, w1⟩
    rcases i2 with ⟨k2, w2⟩
    cases k1
    cases k2
    rfl
  · cases hr : e.daemon.refresh with
    | error err =>
      constructor <;>
        simp [ThreadClient.send, lookupKey, removeKey, SetEnum.eqKey, SysState.init,
          Thread.runWorker, Thread.stepQueue, Thread.handleSet, Thread.refresh, hr,
          dropSlot, sendSlot, dropSlots, List.count_cons, List.count_nil]
    | ok u =>
      cases hb : e.daemon.boards with
      | error err =>
        constructor <;>
          simp [ThreadClient.send, lookupKey, removeKey, SetEnum.eqKey, SysState.init,
            Thread.runWorker, Thread.stepQueue, Thread.handleSet, Thread.refresh, hr, hb,
            dropSlot, sendSlot, dropSlots, List.count_cons, List.count_nil]
      | ok ids =>
        constructor <;>
          simp [ThreadClient.send, lookupKey, removeKey, SetEnum.eqKey, SysState.init,
            Thread.runWorker, Thread.stepQueue, Thread.handleSet, Thread.refresh, hr, hb,
            dropSlot, sendSlot, dropSlots, List.count_cons, List.count_nil]
  · intro st c hc htok
    have htok' : st.tokens[c.cancel]?.getD false = true := by
      simpa [List.getD_eq_getElem?_getD] using htok
    simp [Thread.handleSet, hc, htok']

/-- C10 witness: the scenario conclusions at concrete inputs. -/
theorem constant_identity_commands_debounce_witness :
    (Thread.runWorker envOk (ThreadClient.send (ThreadClient.send SysState.init
        (SetEnum.matrixGetRate { key := (), value := some 5 }))
        (SetEnum.matrixGetRate { key := (), value := some 7 }))).rate = some 7 :=
  (constant_identity_commands_debounce envOk (some 5) (some 7)).2.2.2.2.1.1

end DaemonThread
